import Mathlib

/-!
Verification of the `core/storage` RocksDB adapter (`src/core/storage/src/adapter/rocks.rs`)
of the muta repository, as a shallow embedding in Lean.

Raw bytes are lists of naturals (each byte value is below 256 where it matters);
the two `AtomicU32` counters `i` and `g` are naturals kept below 2^32 by wrapping
addition, exactly as `fetch_add` wraps on `u32`.
-/

/-- Raw byte sequences exchanged with the engine (`protocol::Bytes` / `Vec<u8>`). -/
abbrev Bytes := List Nat

/-- Modelled from the spec: the closed category enumeration
`protocol::traits::StorageCategory` (its declaration lives in the `protocol`
crate, outside `src/`); the spec fixes it as the closed set
{Block, Receipt, SignedTransaction, Wal}, and `rocks.rs` matches on exactly
these four variants. -/
inductive StorageCategory where
  | block
  | receipt
  | signedTransaction
  | wal
deriving DecidableEq

/-- Error enum `RocksAdapterError` of `rocks.rs`. The `rocksDB` variant stands
for an engine-reported `rocksdb::Error`. -/
inductive RocksAdapterError where
  | categoryNotFound (name : String)
  | rocksDB
  | insertParameter
  | batchLengthMismatch
deriving DecidableEq

/-- Errors crossing the adapter boundary (`ProtocolError`): either a codec-kind
error produced by the `ProtocolCodec` boundary, or a storage error wrapping a
`RocksAdapterError` (the `From<RocksAdapterError> for ProtocolError` impl). -/
inductive ProtocolError where
  | codec
  | storage (e : RocksAdapterError)
deriving DecidableEq

/-- Result type `ProtocolResult<T>`. -/
abbrev ProtocolResult (α : Type) := Except ProtocolError α

/-- Modelled from the spec: a `StorageSchema` binding (declared in the
`protocol` crate, outside `src/`): one category plus a key type, a value type
and the fallible `ProtocolCodec` encode/decode routines for them, treated by
the storage core as an opaque byte-codable boundary. -/
structure StorageSchema (K V : Type) where
  category : StorageCategory
  encodeKey : K → ProtocolResult Bytes
  encodeVal : V → ProtocolResult Bytes
  decodeVal : Bytes → ProtocolResult V

/-- Modelled from the spec: the tagged batch mutation
`StorageBatchModify<S>` (declared outside `src/`): either `Insert(value)` or
`Remove`, as used by `batch_modify` in `rocks.rs`. -/
inductive StorageBatchModify (V : Type) where
  | insert (v : V)
  | remove
deriving DecidableEq

/-- One column family of the engine: an association list from physical key
bytes to stored value bytes (first entry with a given key wins, and the
operations below keep keys unique). -/
abbrev KV := List (Bytes × Bytes)

/-- Engine point lookup inside one column family. -/
def kvGet : KV → Bytes → Option Bytes
  | [], _ => none
  | (k', v) :: rest, k => if k' = k then some v else kvGet rest k

/-- Engine put inside one column family: overwrites the entry for the key if
present, otherwise appends it. -/
def kvPut : KV → Bytes → Bytes → KV
  | [], k, v => [(k, v)]
  | (k', v') :: rest, k, v =>
    if k' = k then (k, v) :: rest else (k', v') :: kvPut rest k v

/-- Engine delete inside one column family: removes the entry for the key;
deleting an absent key changes nothing. -/
def kvDelete : KV → Bytes → KV
  | [], _ => []
  | (k', v') :: rest, k =>
    if k' = k then kvDelete rest k else (k', v') :: kvDelete rest k

/-- The opened database: its column families, keyed by their stable string
names (the handle returned by `cf_handle` is modelled by the name itself). -/
abbrev DB := List (String × KV)

/-- Engine `cf_handle` data: the column family stored under a name (first
match; `DB::open_cf` creates each name once). -/
def dbGetCF : DB → String → Option KV
  | [], _ => none
  | (n', kv) :: rest, n => if n' = n then some kv else dbGetCF rest n

/-- Whether a column family with this name is present (`cf_handle(..).is_some()`). -/
def hasCF (db : DB) (n : String) : Bool :=
  (dbGetCF db n).isSome

/-- Applies a function to the column family stored under a name (the engine
routes `put_cf` / `delete_cf` through the column handle). -/
def dbModifyCF : DB → String → (KV → KV) → DB
  | [], _, _ => []
  | (n', kv) :: rest, n, f =>
    if n' = n then (n', f kv) :: rest else (n', kv) :: dbModifyCF rest n f

/-- Engine `put_cf`. -/
def put_cf (db : DB) (n : String) (k v : Bytes) : DB :=
  dbModifyCF db n (fun kv => kvPut kv k v)

/-- Engine `delete_cf`. -/
def delete_cf (db : DB) (n : String) (k : Bytes) : DB :=
  dbModifyCF db n (fun kv => kvDelete kv k)

/-- Engine `get_cf`. -/
def get_cf (db : DB) (n : String) (k : Bytes) : Option Bytes :=
  (dbGetCF db n).bind (fun kv => kvGet kv k)

/-- Column family name constants `C_BLOCKS`, `C_SIGNED_TRANSACTIONS`,
`C_RECEIPTS`, `C_WALS` and the `map_category` function of `rocks.rs`. -/
def map_category : StorageCategory → String
  | .block => "c1"
  | .receipt => "c3"
  | .signedTransaction => "c2"
  | .wal => "c4"

/-- The `get_column::<S>` helper of `rocks.rs`: resolves the schema category to
its column family name, failing with `CategoryNotFound` when the opened store
has no such column family. -/
def get_column {K V : Type} (S : StorageSchema K V) (db : DB) :
    Except RocksAdapterError String :=
  let category := map_category S.category
  if hasCF db category then .ok category else .error (.categoryNotFound category)

/-- Adapter state: the opened database plus the two `AtomicU32` counters `i`
(advanced by `batch_modify`) and `g` (advanced by `get`) of `RocksAdapter`. -/
structure RocksAdapter where
  db : DB
  i : Nat
  g : Nat
deriving DecidableEq

/-- Wrapping `u32` increment, as `AtomicU32::fetch_add(1, ..)` behaves
(4294967296 = 2^32). -/
def wrap32 (n : Nat) : Nat :=
  (n + 1) % 4294967296

/-- `BigEndian::write_u32` of a `u32` counter value into a 4-byte buffer. -/
def be32 (n : Nat) : Bytes :=
  [n / 16777216 % 256, n / 65536 % 256, n / 256 % 256, n % 256]

/-- The synthetic physical key built byte-by-byte in `get` (lines 119-133) and
in `batch_modify` (lines 194-209) of `rocks.rs`: a marker byte (98 while the
counter is below 5000, 97 afterwards), the big-endian counter bytes, then the
schema-encoded key bytes. -/
def realKey (ctr : Nat) (key : Bytes) : Bytes :=
  (if ctr < 5000 then 98 else 97) :: (be32 ctr ++ key)

/-- `RocksAdapter::new`: opens the store with one column family per category,
in the order listed in the `categories` array, creating them for a fresh data
directory, and starts both counters at zero. -/
def RocksAdapter.new : RocksAdapter :=
  { db := [(map_category .block, []), (map_category .receipt, []),
           (map_category .signedTransaction, []), (map_category .wal, [])],
    i := 0,
    g := 0 }

/-- `StorageAdapter::insert` of `RocksAdapter`: encodes key and value, then
performs one engine `put_cf` under the plain encoded key. Returns the call
result paired with the adapter state afterwards. -/
def RocksAdapter.insert {K V : Type} (S : StorageSchema K V)
    (st : RocksAdapter) (key : K) (val : V) :
    ProtocolResult Unit × RocksAdapter :=
  match get_column S st.db with
  | .error e => (.error (.storage e), st)
  | .ok column =>
    match S.encodeKey key with
    | .error e => (.error e, st)
    | .ok k =>
      match S.encodeVal val with
      | .error e => (.error e, st)
      | .ok v => (.ok (), { st with db := put_cf st.db column k v })

/-- The tail of `get` after the engine lookup and the counter bump: decode the
found bytes if any (`if let Some(bytes) = opt_bytes`), propagating a decode
failure, and wrap a found value in `Some`. -/
def decodeTail {V : Type} (dec : Bytes → ProtocolResult V) :
    Option Bytes → ProtocolResult (Option V)
  | some bytes =>
    match dec bytes with
    | .error e => .error e
    | .ok v => .ok (some v)
  | none => .ok none

/-- `StorageAdapter::get` of `RocksAdapter`: encodes the key, builds the
synthetic `real_key` from the read counter `g`, performs the engine lookup
under that prefixed key, increments `g`, then decodes the found bytes (the
increment happens before the decode in the source, so a decode failure still
leaves `g` advanced). -/
def RocksAdapter.get {K V : Type} (S : StorageSchema K V)
    (st : RocksAdapter) (key : K) :
    ProtocolResult (Option V) × RocksAdapter :=
  match get_column S st.db with
  | .error e => (.error (.storage e), st)
  | .ok column =>
    match S.encodeKey key with
    | .error e => (.error e, st)
    | .ok k =>
      let optBytes := get_cf st.db column (realKey st.g k)
      let st' := { st with g := wrap32 st.g }
      (decodeTail S.decodeVal optBytes, st')

/-- `StorageAdapter::remove` of `RocksAdapter`: encodes the key and performs
one engine `delete_cf` under the plain encoded key. -/
def RocksAdapter.remove {K V : Type} (S : StorageSchema K V)
    (st : RocksAdapter) (key : K) :
    ProtocolResult Unit × RocksAdapter :=
  match get_column S st.db with
  | .error e => (.error (.storage e), st)
  | .ok column =>
    match S.encodeKey key with
    | .error e => (.error e, st)
    | .ok k => (.ok (), { st with db := delete_cf st.db column k })

/-- `StorageAdapter::contains` of `RocksAdapter`: encodes the key, performs an
engine lookup under the plain encoded key and reports presence. -/
def RocksAdapter.contains {K V : Type} (S : StorageSchema K V)
    (st : RocksAdapter) (key : K) :
    ProtocolResult Bool × RocksAdapter :=
  match get_column S st.db with
  | .error e => (.error (.storage e), st)
  | .ok column =>
    match S.encodeKey key with
    | .error e => (.error e, st)
    | .ok k => (.ok ((get_cf st.db column k).isSome), st)

/-- The pair-building loop of `batch_modify` (lines 186-213): encodes each
key and each `Insert` value in order, prefixes each encoded key with the
current value of the write counter `i` via `realKey`, and increments `i` once
per pair. A codec failure aborts the loop, keeping the counter increments
already performed (the `?` early return after the atomics were bumped).
Returns the built physical pairs (or the first error) and the final counter. -/
def buildPairs {K V : Type} (S : StorageSchema K V) :
    Nat → List (K × StorageBatchModify V) →
    ProtocolResult (List (Bytes × Option Bytes)) × Nat
  | i, [] => (.ok [], i)
  | i, (key, value) :: rest =>
    match S.encodeKey key with
    | .error e => (.error e, i)
    | .ok k =>
      match (match value with
             | .insert v => (S.encodeVal v).map some
             | .remove => .ok none : ProtocolResult (Option Bytes)) with
      | .error e => (.error e, i)
      | .ok vOpt =>
        match buildPairs S (wrap32 i) rest with
        | (.ok pairs, iF) => (.ok ((realKey i k, vOpt) :: pairs), iF)
        | (.error e, iF) => (.error e, iF)

/-- The engine applying one `WriteBatch`: the collected put/delete operations
on a single column family, in the caller-supplied order, as one unit. -/
def applyPairs (kv : KV) : List (Bytes × Option Bytes) → KV
  | [] => kv
  | (k, some v) :: rest => applyPairs (kvPut kv k v) rest
  | (k, none) :: rest => applyPairs (kvDelete kv k) rest

/-- `self.db.write(batch)` applied to the store: the whole batch lands in the
resolved column family in one engine call. -/
def writeBatchCF (db : DB) (n : String) (pairs : List (Bytes × Option Bytes)) : DB :=
  dbModifyCF db n (fun kv => applyPairs kv pairs)

/-- `StorageAdapter::batch_modify` of `RocksAdapter`: rejects mismatched list
lengths before anything else, resolves the column, builds the prefixed
physical pairs (advancing the write counter `i` once per pair), then commits
them as a single engine write-batch. The boolean `fail` models the report of
the external engine for that single `write` call: `true` means the engine
reports failure (an atomic write-batch that lands nothing), `false` success. -/
def RocksAdapter.batch_modify {K V : Type} (S : StorageSchema K V)
    (fail : Bool) (st : RocksAdapter)
    (keys : List K) (vals : List (StorageBatchModify V)) :
    ProtocolResult Unit × RocksAdapter :=
  if keys.length ≠ vals.length then
    (.error (.storage .batchLengthMismatch), st)
  else
    match get_column S st.db with
    | .error e => (.error (.storage e), st)
    | .ok column =>
      match buildPairs S st.i (keys.zip vals) with
      | (.error e, iF) => (.error e, { st with i := iF })
      | (.ok pairs, iF) =>
        if fail then
          (.error (.storage .rocksDB), { st with i := iF })
        else
          (.ok (), { st with i := iF, db := writeBatchCF st.db column pairs })

/-- A schema over raw bytes with the identity codec, one per category: a legal
instantiation of the opaque codec boundary, used for concrete evaluations. -/
def bytesSchema (c : StorageCategory) : StorageSchema Bytes Bytes :=
  { category := c,
    encodeKey := fun k => .ok k,
    encodeVal := fun v => .ok v,
    decodeVal := fun b => .ok b }

/-! ## Helper lemmas about the engine model -/

lemma kvGet_kvPut_self (kv : KV) (k v : Bytes) :
    kvGet (kvPut kv k v) k = some v := by
  induction kv with
  | nil => simp [kvPut, kvGet]
  | cons p rest ih =>
    by_cases h : p.1 = k
    · simp [kvPut, kvGet, h]
    · simp [kvPut, kvGet, h, ih]

lemma kvGet_kvPut_ne (kv : KV) (k' k v : Bytes) (h : k' ≠ k) :
    kvGet (kvPut kv k' v) k = kvGet kv k := by
  induction kv with
  | nil => simp [kvPut, kvGet, h]
  | cons p rest ih =>
    by_cases hp : p.1 = k'
    · simp [kvPut, kvGet, hp, h]
    · simp only [kvPut, hp, if_false]
      by_cases hk : p.1 = k <;> simp [kvGet, hk, ih]

lemma kvGet_kvDelete_self (kv : KV) (k : Bytes) :
    kvGet (kvDelete kv k) k = none := by
  induction kv with
  | nil => simp [kvDelete, kvGet]
  | cons p rest ih =>
    by_cases h : p.1 = k
    · simp [kvDelete, h, ih]
    · simp [kvDelete, kvGet, h, ih]

lemma kvGet_kvDelete_ne (kv : KV) (k' k : Bytes) (h : k' ≠ k) :
    kvGet (kvDelete kv k') k = kvGet kv k := by
  induction kv with
  | nil => simp [kvDelete, kvGet]
  | cons p rest ih =>
    obtain ⟨k1, v1⟩ := p
    by_cases hp : k1 = k'
    · have hk : k1 ≠ k := fun hc => h (hp ▸ hc ▸ rfl)
      rw [show kvDelete ((k1, v1) :: rest) k' = kvDelete rest k' by
            simp [kvDelete, hp]]
      rw [show kvGet ((k1, v1) :: rest) k = kvGet rest k by simp [kvGet, hk]]
      exact ih
    · rw [show kvDelete ((k1, v1) :: rest) k' = (k1, v1) :: kvDelete rest k' by
            simp [kvDelete, hp]]
      by_cases hk : k1 = k <;> simp [kvGet, hk, ih]

lemma kvDelete_of_get_none (kv : KV) (k : Bytes) (h : kvGet kv k = none) :
    kvDelete kv k = kv := by
  induction kv with
  | nil => rfl
  | cons p rest ih =>
    by_cases hp : p.1 = k
    · simp [kvGet, hp] at h
    · simp only [kvGet, hp, if_false] at h
      simp [kvDelete, hp, ih h]

lemma dbGetCF_modify_self (db : DB) (n : String) (f : KV → KV) :
    dbGetCF (dbModifyCF db n f) n = (dbGetCF db n).map f := by
  induction db with
  | nil => rfl
  | cons p rest ih =>
    by_cases h : p.1 = n
    · simp [dbModifyCF, dbGetCF, h]
    · simp [dbModifyCF, dbGetCF, h, ih]

lemma dbGetCF_modify_ne (db : DB) (n m : String) (f : KV → KV) (h : m ≠ n) :
    dbGetCF (dbModifyCF db n f) m = dbGetCF db m := by
  induction db with
  | nil => rfl
  | cons p rest ih =>
    obtain ⟨n1, kv1⟩ := p
    by_cases hp : n1 = n
    · have hm : n1 ≠ m := fun hc => h (hc ▸ hp)
      rw [show dbModifyCF ((n1, kv1) :: rest) n f = (n1, f kv1) :: rest by
            simp [dbModifyCF, hp]]
      simp [dbGetCF, hm]
    · rw [show dbModifyCF ((n1, kv1) :: rest) n f
            = (n1, kv1) :: dbModifyCF rest n f by simp [dbModifyCF, hp]]
      by_cases hm : n1 = m <;> simp [dbGetCF, hm, ih]

lemma hasCF_modify (db : DB) (n m : String) (f : KV → KV) :
    hasCF (dbModifyCF db n f) m = hasCF db m := by
  by_cases h : m = n
  · subst h
    rw [hasCF, hasCF, dbGetCF_modify_self]
    cases dbGetCF db m <;> rfl
  · rw [hasCF, hasCF, dbGetCF_modify_ne _ _ _ _ h]

lemma dbModifyCF_id (db : DB) (n : String) (f : KV → KV) (kv0 : KV)
    (hget : dbGetCF db n = some kv0) (hf : f kv0 = kv0) :
    dbModifyCF db n f = db := by
  induction db with
  | nil => rfl
  | cons p rest ih =>
    obtain ⟨n1, kv1⟩ := p
    by_cases h : n1 = n
    · rw [show dbGetCF ((n1, kv1) :: rest) n = some kv1 by simp [dbGetCF, h]] at hget
      obtain rfl : kv1 = kv0 := Option.some.inj hget
      simp [dbModifyCF, h, hf]
    · rw [show dbGetCF ((n1, kv1) :: rest) n = dbGetCF rest n by
            simp [dbGetCF, h]] at hget
      simp [dbModifyCF, h, ih hget]

/-! ## Claim theorems -/

/-- Claim C1: the claimed round-trip fails on the code. On a freshly constructed
adapter, `insert(k, v)` succeeds but the subsequent `get(k)` returns
`Ok(None)`, not `Some(v)`: `insert` writes under the plain encoded key while
`get` looks up the counter-prefixed synthetic key. Evaluated at the failing
input k = [0], v = [1] with the identity-codec Block schema. -/
theorem c1_insert_then_get_returns_none :
    (RocksAdapter.insert (bytesSchema .block) RocksAdapter.new [0] [1]).1
      = .ok () ∧
    (RocksAdapter.get (bytesSchema .block)
        ((RocksAdapter.insert (bytesSchema .block) RocksAdapter.new [0] [1]).2)
        [0]).1
      = .ok none ∧
    (RocksAdapter.get (bytesSchema .block)
        ((RocksAdapter.insert (bytesSchema .block) RocksAdapter.new [0] [1]).2)
        [0]).1
      ≠ .ok (some [1]) := by
  refine ⟨rfl, rfl, ?_⟩
  intro h
  rw [show (RocksAdapter.get (bytesSchema .block)
      ((RocksAdapter.insert (bytesSchema .block) RocksAdapter.new [0] [1]).2)
      [0]).1 = .ok none from rfl] at h
  exact Option.noConfusion (Except.ok.inj h)

/-- Claim C5: the overwrite claim fails on the code at the `get` step. After
`insert(k, v1)` then `insert(k, v2)` on a fresh adapter, the second insert
returns `Ok` (no pre-existence error) and the stored bytes under the encoded
key are `v2` (the overwrite itself happens, as `contains` also confirms), but
`get(k)` returns `Ok(None)` rather than `Some(v2)` because it probes the
counter-prefixed key space. Evaluated at k = [0], v1 = [1], v2 = [2]. -/
theorem c5_double_insert_overwrites_but_get_returns_none :
    (RocksAdapter.insert (bytesSchema .block)
        ((RocksAdapter.insert (bytesSchema .block) RocksAdapter.new [0] [1]).2)
        [0] [2]).1
      = .ok () ∧
    get_cf ((RocksAdapter.insert (bytesSchema .block)
        ((RocksAdapter.insert (bytesSchema .block) RocksAdapter.new [0] [1]).2)
        [0] [2]).2).db "c1" [0]
      = some [2] ∧
    (RocksAdapter.contains (bytesSchema .block)
        ((RocksAdapter.insert (bytesSchema .block)
          ((RocksAdapter.insert (bytesSchema .block) RocksAdapter.new [0] [1]).2)
          [0] [2]).2) [0]).1
      = .ok true ∧
    (RocksAdapter.get (bytesSchema .block)
        ((RocksAdapter.insert (bytesSchema .block)
          ((RocksAdapter.insert (bytesSchema .block) RocksAdapter.new [0] [1]).2)
          [0] [2]).2) [0]).1
      = .ok none :=
  ⟨rfl, rfl, rfl, rfl⟩

/-- Claim C4: a batch whose key list and mutation list have different lengths is
rejected with `BatchLengthMismatch` and the adapter state is returned exactly
as it was: no write happens, neither counter moves, and since the schema (and
hence its codec) is universally quantified — including codecs that fail on
every input — the rejection happens before any key or value is encoded and
before any engine call. -/
theorem c4_batch_length_mismatch_rejected {K V : Type} (S : StorageSchema K V)
    (fail : Bool) (st : RocksAdapter)
    (keys : List K) (vals : List (StorageBatchModify V))
    (h : keys.length ≠ vals.length) :
    RocksAdapter.batch_modify S fail st keys vals
      = (.error (.storage .batchLengthMismatch), st) := by
  rw [RocksAdapter.batch_modify, if_pos h]

/-- Witness for C4: a concrete one-key, zero-mutation batch (the schema codec
is the identity codec, which would succeed, so the mismatch check really is
what rejects the call). -/
theorem c4_witness :
    ([[0]] : List Bytes).length ≠ ([] : List (StorageBatchModify Bytes)).length ∧
    RocksAdapter.batch_modify (bytesSchema .block) false RocksAdapter.new
        [[0]] []
      = (.error (.storage .batchLengthMismatch), RocksAdapter.new) :=
  ⟨by decide,
   c4_batch_length_mismatch_rejected (bytesSchema .block) false RocksAdapter.new
     [[0]] [] (by decide)⟩

lemma get_column_ok {K V : Type} (S : StorageSchema K V) (db : DB)
    (hcf : hasCF db (map_category S.category) = true) :
    get_column S db = .ok (map_category S.category) := by
  rw [get_column]
  simp only [hcf, if_true]

/-- Claim C6: `remove(k)` on a key absent from the resolved column family
returns `Ok(())` and the whole adapter state — stored data and both
counters — is literally unchanged. -/
theorem c6_remove_absent_is_noop {K V : Type} (S : StorageSchema K V)
    (st : RocksAdapter) (k : K) (ek : Bytes)
    (hk : S.encodeKey k = .ok ek)
    (hcf : hasCF st.db (map_category S.category) = true)
    (habs : get_cf st.db (map_category S.category) ek = none) :
    RocksAdapter.remove S st k = (.ok (), st) := by
  obtain ⟨kv0, hkv0⟩ : ∃ kv0, dbGetCF st.db (map_category S.category) = some kv0 := by
    rw [hasCF] at hcf
    cases h : dbGetCF st.db (map_category S.category) with
    | none => rw [h] at hcf; exact absurd hcf (by simp)
    | some kv0 => exact ⟨kv0, rfl⟩
  have hget : kvGet kv0 ek = none := by
    rw [get_cf, hkv0] at habs
    exact habs
  have hdel : delete_cf st.db (map_category S.category) ek = st.db :=
    dbModifyCF_id _ _ _ kv0 hkv0 (kvDelete_of_get_none kv0 ek hget)
  rw [RocksAdapter.remove, get_column_ok S st.db hcf]
  simp only [hk, hdel]

/-- Witness for C6: removing the never-inserted key [7] from a freshly
constructed adapter succeeds and returns the state unchanged. -/
theorem c6_witness :
    (bytesSchema .wal).encodeKey [7] = .ok [7] ∧
    hasCF RocksAdapter.new.db (map_category (bytesSchema .wal).category) = true ∧
    get_cf RocksAdapter.new.db (map_category (bytesSchema .wal).category) [7] = none ∧
    RocksAdapter.remove (bytesSchema .wal) RocksAdapter.new [7]
      = (.ok (), RocksAdapter.new) :=
  ⟨rfl, rfl, rfl,
   c6_remove_absent_is_noop (bytesSchema .wal) RocksAdapter.new [7] [7] rfl rfl rfl⟩


lemma dbGetCF_some_of_hasCF (db : DB) (n : String) (h : hasCF db n = true) :
    ∃ kv0, dbGetCF db n = some kv0 := by
  rw [hasCF] at h
  cases hg : dbGetCF db n with
  | none => rw [hg] at h; exact absurd h (by simp)
  | some kv0 => exact ⟨kv0, rfl⟩

lemma insert_eq {K V : Type} (S : StorageSchema K V) (st : RocksAdapter)
    (k : K) (v : V) (ek ev : Bytes)
    (hk : S.encodeKey k = .ok ek) (hv : S.encodeVal v = .ok ev)
    (hcf : hasCF st.db (map_category S.category) = true) :
    RocksAdapter.insert S st k v
      = (.ok (), { st with db := put_cf st.db (map_category S.category) ek ev }) := by
  rw [RocksAdapter.insert, get_column_ok S st.db hcf]
  simp only [hk, hv]

lemma remove_eq {K V : Type} (S : StorageSchema K V) (st : RocksAdapter)
    (k : K) (ek : Bytes)
    (hk : S.encodeKey k = .ok ek)
    (hcf : hasCF st.db (map_category S.category) = true) :
    RocksAdapter.remove S st k
      = (.ok (), { st with db := delete_cf st.db (map_category S.category) ek }) := by
  rw [RocksAdapter.remove, get_column_ok S st.db hcf]
  simp only [hk]

lemma contains_fst {K V : Type} (S : StorageSchema K V) (st : RocksAdapter)
    (k : K) (ek : Bytes)
    (hk : S.encodeKey k = .ok ek)
    (hcf : hasCF st.db (map_category S.category) = true) :
    (RocksAdapter.contains S st k).1
      = .ok ((get_cf st.db (map_category S.category) ek).isSome) := by
  rw [RocksAdapter.contains, get_column_ok S st.db hcf]
  simp only [hk]

/-- Claim C9: existence checks agree with writes. When key and value encode
successfully and the column family exists, `insert(k, v)` returns `Ok` and a
following `contains(k)` returns `Ok(true)`; a `remove(k)` after that makes
`contains(k)` return `Ok(false)`: insert, remove and contains all address the
store by the plain schema-encoded key. Meanwhile the physical key `get` would
probe is never that key (last conjunct), so `get` addresses a different
physical key space. -/
theorem c9_insert_contains_remove_agree {K V : Type} (S : StorageSchema K V)
    (st : RocksAdapter) (k : K) (v : V) (ek ev : Bytes)
    (hk : S.encodeKey k = .ok ek) (hv : S.encodeVal v = .ok ev)
    (hcf : hasCF st.db (map_category S.category) = true) :
    (RocksAdapter.insert S st k v).1 = .ok () ∧
    (RocksAdapter.contains S ((RocksAdapter.insert S st k v).2) k).1
      = .ok true ∧
    (RocksAdapter.contains S
        ((RocksAdapter.remove S ((RocksAdapter.insert S st k v).2) k).2) k).1
      = .ok false ∧
    ∀ g, realKey g ek ≠ ek := by
  obtain ⟨kv0, hkv0⟩ := dbGetCF_some_of_hasCF _ _ hcf
  have hins := insert_eq S st k v ek ev hk hv hcf
  have hdb1 : dbGetCF (put_cf st.db (map_category S.category) ek ev)
      (map_category S.category) = some (kvPut kv0 ek ev) := by
    rw [put_cf, dbGetCF_modify_self, hkv0]
    rfl
  have hcf1 : hasCF ((RocksAdapter.insert S st k v).2).db
      (map_category S.category) = true := by
    rw [hins, hasCF, hdb1]
    rfl
  have hdbi : dbGetCF ((RocksAdapter.insert S st k v).2).db
      (map_category S.category) = some (kvPut kv0 ek ev) := by
    rw [hins]
    exact hdb1
  refine ⟨by rw [hins], ?_, ?_, ?_⟩
  · rw [contains_fst S _ k ek hk hcf1, get_cf, hdbi, Option.some_bind,
      kvGet_kvPut_self]
    rfl
  · have hrem := remove_eq S ((RocksAdapter.insert S st k v).2) k ek hk hcf1
    have hdb2 : dbGetCF ((RocksAdapter.remove S ((RocksAdapter.insert S st k v).2) k).2).db
        (map_category S.category) = some (kvDelete (kvPut kv0 ek ev) ek) := by
      rw [hrem, delete_cf, dbGetCF_modify_self, hdbi]
      rfl
    have hcf2 : hasCF ((RocksAdapter.remove S ((RocksAdapter.insert S st k v).2) k).2).db
        (map_category S.category) = true := by
      rw [hasCF, hdb2]
      rfl
    rw [contains_fst S _ k ek hk hcf2, get_cf, hdb2, Option.some_bind,
      kvGet_kvDelete_self]
    rfl
  · intro g h
    have := congrArg List.length h
    simp only [realKey, be32, List.length_cons, List.length_append] at this
    omega

/-- Witness for C9: inserting value [9] under key [4] in the Receipt category
of a fresh adapter makes `contains` answer true. -/
theorem c9_witness :
    (bytesSchema .receipt).encodeKey [4] = .ok [4] ∧
    (bytesSchema .receipt).encodeVal [9] = .ok [9] ∧
    hasCF RocksAdapter.new.db (map_category (bytesSchema .receipt).category) = true ∧
    (RocksAdapter.contains (bytesSchema .receipt)
        ((RocksAdapter.insert (bytesSchema .receipt) RocksAdapter.new [4] [9]).2)
        [4]).1
      = .ok true :=
  ⟨rfl, rfl, rfl,
   (c9_insert_contains_remove_agree (bytesSchema .receipt) RocksAdapter.new
      [4] [9] [4] [9] rfl rfl rfl).2.1⟩

lemma get_column_nocf {K V : Type} (S : StorageSchema K V) (db : DB)
    (hcf : hasCF db (map_category S.category) = false) :
    get_column S db = .error (.categoryNotFound (map_category S.category)) := by
  rw [get_column]
  simp only [hcf, Bool.false_eq_true, if_false]

lemma get_fst_eq {K V : Type} (S : StorageSchema K V) (st : RocksAdapter)
    (k : K) (ek : Bytes)
    (hk : S.encodeKey k = .ok ek)
    (hcf : hasCF st.db (map_category S.category) = true) :
    (RocksAdapter.get S st k).1
      = decodeTail S.decodeVal
          (get_cf st.db (map_category S.category) (realKey st.g ek)) := by
  rw [RocksAdapter.get, get_column_ok S st.db hcf]
  simp only [hk]

lemma get_snd_eq {K V : Type} (S : StorageSchema K V) (st : RocksAdapter)
    (k : K) (ek : Bytes)
    (hk : S.encodeKey k = .ok ek)
    (hcf : hasCF st.db (map_category S.category) = true) :
    (RocksAdapter.get S st k).2 = { st with g := wrap32 st.g } := by
  rw [RocksAdapter.get, get_column_ok S st.db hcf]
  simp only [hk]

lemma get_fst_encode_error {K V : Type} (S : StorageSchema K V)
    (st : RocksAdapter) (k : K) (e : ProtocolError)
    (hk : S.encodeKey k = .error e)
    (hcf : hasCF st.db (map_category S.category) = true) :
    RocksAdapter.get S st k = (.error e, st) := by
  rw [RocksAdapter.get, get_column_ok S st.db hcf]
  simp only [hk]

lemma get_nocf {K V : Type} (S : StorageSchema K V) (st : RocksAdapter) (k : K)
    (hcf : hasCF st.db (map_category S.category) = false) :
    RocksAdapter.get S st k
      = (.error (.storage (.categoryNotFound (map_category S.category))), st) := by
  rw [RocksAdapter.get, get_column_nocf S st.db hcf]

lemma contains_nocf {K V : Type} (S : StorageSchema K V) (st : RocksAdapter) (k : K)
    (hcf : hasCF st.db (map_category S.category) = false) :
    RocksAdapter.contains S st k
      = (.error (.storage (.categoryNotFound (map_category S.category))), st) := by
  rw [RocksAdapter.contains, get_column_nocf S st.db hcf]

lemma contains_fst_encode_error {K V : Type} (S : StorageSchema K V)
    (st : RocksAdapter) (k : K) (e : ProtocolError)
    (hk : S.encodeKey k = .error e)
    (hcf : hasCF st.db (map_category S.category) = true) :
    RocksAdapter.contains S st k = (.error e, st) := by
  rw [RocksAdapter.contains, get_column_ok S st.db hcf]
  simp only [hk]

lemma contains_fst_congr {K V : Type} (S : StorageSchema K V)
    (st1 st2 : RocksAdapter) (k : K)
    (h : dbGetCF st1.db (map_category S.category)
        = dbGetCF st2.db (map_category S.category)) :
    (RocksAdapter.contains S st1 k).1 = (RocksAdapter.contains S st2 k).1 := by
  have hh : hasCF st1.db (map_category S.category)
      = hasCF st2.db (map_category S.category) := by
    rw [hasCF, hasCF, h]
  by_cases hc : hasCF st2.db (map_category S.category) = true
  · have hc1 : hasCF st1.db (map_category S.category) = true := hh ▸ hc
    cases hk : S.encodeKey k with
    | error e =>
      rw [contains_fst_encode_error S st1 k e hk hc1,
        contains_fst_encode_error S st2 k e hk hc]
    | ok ek =>
      rw [contains_fst S st1 k ek hk hc1, contains_fst S st2 k ek hk hc,
        get_cf, get_cf, h]
  · have hc2 : hasCF st2.db (map_category S.category) = false :=
      Bool.not_eq_true _ ▸ (by simpa using hc)
    have hc1 : hasCF st1.db (map_category S.category) = false := hh ▸ hc2
    rw [contains_nocf S st1 k hc1, contains_nocf S st2 k hc2]

lemma get_fst_congr {K V : Type} (S : StorageSchema K V)
    (st1 st2 : RocksAdapter) (k : K)
    (hdb : dbGetCF st1.db (map_category S.category)
        = dbGetCF st2.db (map_category S.category))
    (hg : st1.g = st2.g) :
    (RocksAdapter.get S st1 k).1 = (RocksAdapter.get S st2 k).1 := by
  have hh : hasCF st1.db (map_category S.category)
      = hasCF st2.db (map_category S.category) := by
    rw [hasCF, hasCF, hdb]
  by_cases hc : hasCF st2.db (map_category S.category) = true
  · have hc1 : hasCF st1.db (map_category S.category) = true := hh ▸ hc
    cases hk : S.encodeKey k with
    | error e =>
      rw [get_fst_encode_error S st1 k e hk hc1,
        get_fst_encode_error S st2 k e hk hc]
    | ok ek =>
      rw [get_fst_eq S st1 k ek hk hc1, get_fst_eq S st2 k ek hk hc,
        get_cf, get_cf, hdb, hg]
  · have hc2 : hasCF st2.db (map_category S.category) = false := by
      simpa using hc
    have hc1 : hasCF st1.db (map_category S.category) = false := hh ▸ hc2
    rw [get_nocf S st1 k hc1, get_nocf S st2 k hc2]

/-- Claim C7: category isolation. The category-to-partition mapping is injective
over the four categories, an `insert` through a schema of one category leaves
every other physical partition untouched, and neither `contains` nor `get`
through a schema of a different category can observe the inserted value: their
results are exactly what they were before the insert. -/
theorem c7_category_isolation {K V : Type} (S1 S2 : StorageSchema K V)
    (st : RocksAdapter) (k k2 : K) (v : V) (col : String)
    (hcat : S1.category ≠ S2.category)
    (hcol : col ≠ map_category S1.category) :
    map_category S1.category ≠ map_category S2.category ∧
    dbGetCF ((RocksAdapter.insert S1 st k v).2).db col = dbGetCF st.db col ∧
    (RocksAdapter.contains S2 ((RocksAdapter.insert S1 st k v).2) k2).1
      = (RocksAdapter.contains S2 st k2).1 ∧
    (RocksAdapter.get S2 ((RocksAdapter.insert S1 st k v).2) k2).1
      = (RocksAdapter.get S2 st k2).1 := by
  have hinj : ∀ a b : StorageCategory, a ≠ b → map_category a ≠ map_category b := by
    intro a b hab
    cases a <;> cases b <;> first
      | exact absurd rfl hab
      | decide
  have hmc := hinj S1.category S2.category hcat
  have hother : ∀ c : String, c ≠ map_category S1.category →
      dbGetCF ((RocksAdapter.insert S1 st k v).2).db c = dbGetCF st.db c := by
    intro c hc
    rw [RocksAdapter.insert]
    cases hcol0 : get_column S1 st.db with
    | error e => rfl
    | ok column =>
      have hcoleq : column = map_category S1.category := by
        rw [get_column] at hcol0
        by_cases hcf : hasCF st.db (map_category S1.category) = true
        · simp only [hcf, if_true] at hcol0
          exact (Except.ok.inj hcol0).symm
        · simp only [hcf, Bool.false_eq_true, if_false] at hcol0
          exact Except.noConfusion hcol0
      subst hcoleq
      cases S1.encodeKey k with
      | error e => rfl
      | ok ek =>
        cases S1.encodeVal v with
        | error e => rfl
        | ok ev =>
          exact dbGetCF_modify_ne st.db _ c _ hc
  have hgpres : ((RocksAdapter.insert S1 st k v).2).g = st.g := by
    rw [RocksAdapter.insert]
    cases get_column S1 st.db with
    | error e => rfl
    | ok column =>
      cases S1.encodeKey k with
      | error e => rfl
      | ok ek =>
        cases S1.encodeVal v with
        | error e => rfl
        | ok ev => rfl
  have hdb2 := hother (map_category S2.category) (fun hc => hmc hc.symm)
  exact ⟨hmc, hother col hcol,
    contains_fst_congr S2 _ st k2 hdb2,
    get_fst_congr S2 _ st k2 hdb2 hgpres⟩

/-- Witness for C7: inserting [9] under key [1] through a Block schema leaves
the Wal partition untouched and invisible to Wal reads. -/
theorem c7_witness :
    map_category (bytesSchema .block).category
      ≠ map_category (bytesSchema .wal).category ∧
    (RocksAdapter.contains (bytesSchema .wal)
        ((RocksAdapter.insert (bytesSchema .block) RocksAdapter.new [1] [9]).2)
        [1]).1
      = (RocksAdapter.contains (bytesSchema .wal) RocksAdapter.new [1]).1 :=
  ⟨(c7_category_isolation (bytesSchema .block) (bytesSchema .wal)
      RocksAdapter.new [1] [1] [9] "c4" (by decide) (by decide)).1,
   (c7_category_isolation (bytesSchema .block) (bytesSchema .wal)
      RocksAdapter.new [1] [1] [9] "c4" (by decide) (by decide)).2.2.1⟩

/-- Claim C2: the read path is keyed by a synthetic counter prefix. On the
persistent adapter, `get` performs its engine lookup under
`realKey g (encoded key)` — a marker byte plus the big-endian value of the
read counter `g` prepended to the encoded key — which never equals the plain
key that `insert` writes; `g` advances by one per `get` call, does not touch
the write counter `i`, and its advance is independent of which key is looked
up. Consequently (last conjunct) there is a sequence of operations — a batch
inserting under keys [1] and [2] (written with write-counter prefixes 0 and 1)
followed by `get([2])` (probing read-counter prefix 0) — in which the value is
present in the store under its write-side prefixed key yet the point lookup
returns `Ok(None)`. -/
theorem c2_read_side_synthetic_key (st : RocksAdapter) (k k2 : Bytes)
    (hcf : hasCF st.db (map_category .block) = true) :
    (RocksAdapter.get (bytesSchema .block) st k).1
      = decodeTail (bytesSchema .block).decodeVal
          (get_cf st.db (map_category .block) (realKey st.g k)) ∧
    realKey st.g k ≠ k ∧
    (RocksAdapter.get (bytesSchema .block) st k).2.g = wrap32 st.g ∧
    (RocksAdapter.get (bytesSchema .block) st k).2.i = st.i ∧
    (RocksAdapter.get (bytesSchema .block) st k2).2.g
      = (RocksAdapter.get (bytesSchema .block) st k).2.g ∧
    ((RocksAdapter.batch_modify (bytesSchema .block) false RocksAdapter.new
        [[1], [2]] [.insert [7], .insert [8]]).1 = .ok () ∧
     get_cf ((RocksAdapter.batch_modify (bytesSchema .block) false RocksAdapter.new
        [[1], [2]] [.insert [7], .insert [8]]).2).db "c1" (realKey 1 [2])
       = some [8] ∧
     (RocksAdapter.get (bytesSchema .block)
        ((RocksAdapter.batch_modify (bytesSchema .block) false RocksAdapter.new
          [[1], [2]] [.insert [7], .insert [8]]).2) [2]).1
       = .ok none) := by
  refine ⟨get_fst_eq (bytesSchema .block) st k k rfl hcf, ?_, ?_, ?_, ?_,
    rfl, rfl, rfl⟩
  · intro h
    have := congrArg List.length h
    simp only [realKey, be32, List.length_cons, List.length_append] at this
    omega
  · rw [get_snd_eq (bytesSchema .block) st k k rfl hcf]
  · rw [get_snd_eq (bytesSchema .block) st k k rfl hcf]
  · rw [get_snd_eq (bytesSchema .block) st k2 k2 rfl hcf,
      get_snd_eq (bytesSchema .block) st k k rfl hcf]

/-- Witness for C2: on a fresh adapter the read counter starts at 0, so the
first `get` of key [5] probes `realKey 0 [5]` and afterwards `g` is 1. -/
theorem c2_witness :
    hasCF RocksAdapter.new.db (map_category .block) = true ∧
    (RocksAdapter.get (bytesSchema .block) RocksAdapter.new [5]).2.g = wrap32 0 ∧
    realKey 0 [5] ≠ [5] :=
  ⟨rfl,
   (c2_read_side_synthetic_key RocksAdapter.new [5] [5] rfl).2.2.1,
   (c2_read_side_synthetic_key RocksAdapter.new [5] [5] rfl).2.1⟩

lemma insert_hasCF {K V : Type} (S : StorageSchema K V) (st : RocksAdapter)
    (k : K) (v : V) (n : String) :
    hasCF ((RocksAdapter.insert S st k v).2).db n = hasCF st.db n := by
  rw [RocksAdapter.insert]
  cases get_column S st.db with
  | error e => rfl
  | ok column =>
    cases S.encodeKey k with
    | error e => rfl
    | ok ek =>
      cases S.encodeVal v with
      | error e => rfl
      | ok ev => exact hasCF_modify st.db column n _

lemma get_hasCF {K V : Type} (S : StorageSchema K V) (st : RocksAdapter)
    (k : K) (n : String) :
    hasCF ((RocksAdapter.get S st k).2).db n = hasCF st.db n := by
  rw [RocksAdapter.get]
  cases get_column S st.db with
  | error e => rfl
  | ok column =>
    cases S.encodeKey k with
    | error e => rfl
    | ok ek => rfl

lemma remove_hasCF {K V : Type} (S : StorageSchema K V) (st : RocksAdapter)
    (k : K) (n : String) :
    hasCF ((RocksAdapter.remove S st k).2).db n = hasCF st.db n := by
  rw [RocksAdapter.remove]
  cases get_column S st.db with
  | error e => rfl
  | ok column =>
    cases S.encodeKey k with
    | error e => rfl
    | ok ek => exact hasCF_modify st.db column n _

lemma contains_hasCF {K V : Type} (S : StorageSchema K V) (st : RocksAdapter)
    (k : K) (n : String) :
    hasCF ((RocksAdapter.contains S st k).2).db n = hasCF st.db n := by
  rw [RocksAdapter.contains]
  cases get_column S st.db with
  | error e => rfl
  | ok column =>
    cases S.encodeKey k with
    | error e => rfl
    | ok ek => rfl

lemma batch_modify_hasCF {K V : Type} (S : StorageSchema K V) (fail : Bool)
    (st : RocksAdapter) (keys : List K) (vals : List (StorageBatchModify V))
    (n : String) :
    hasCF ((RocksAdapter.batch_modify S fail st keys vals).2).db n
      = hasCF st.db n := by
  rw [RocksAdapter.batch_modify]
  by_cases hlen : keys.length ≠ vals.length
  · rw [if_pos hlen]
  · rw [if_neg hlen]
    cases get_column S st.db with
    | error e => rfl
    | ok column =>
      cases buildPairs S st.i (keys.zip vals) with
      | mk r iF =>
        cases r with
        | error e => rfl
        | ok pairs =>
          cases fail with
          | true => rfl
          | false => exact hasCF_modify st.db column n _

/-- Adapter states reachable from a successful fresh construction
(`RocksAdapter::new`) through any sequence of the five contract operations,
over any schemas. -/
inductive Reachable : RocksAdapter → Prop where
  | new : Reachable RocksAdapter.new
  | insert {K V : Type} (S : StorageSchema K V) (st : RocksAdapter) (k : K) (v : V) :
      Reachable st → Reachable (RocksAdapter.insert S st k v).2
  | get {K V : Type} (S : StorageSchema K V) (st : RocksAdapter) (k : K) :
      Reachable st → Reachable (RocksAdapter.get S st k).2
  | remove {K V : Type} (S : StorageSchema K V) (st : RocksAdapter) (k : K) :
      Reachable st → Reachable (RocksAdapter.remove S st k).2
  | contains {K V : Type} (S : StorageSchema K V) (st : RocksAdapter) (k : K) :
      Reachable st → Reachable (RocksAdapter.contains S st k).2
  | batch_modify {K V : Type} (S : StorageSchema K V) (fail : Bool)
      (st : RocksAdapter) (keys : List K) (vals : List (StorageBatchModify V)) :
      Reachable st → Reachable (RocksAdapter.batch_modify S fail st keys vals).2

lemma reachable_hasCF (st : RocksAdapter) (h : Reachable st) :
    ∀ c : StorageCategory, hasCF st.db (map_category c) = true := by
  induction h with
  | new => intro c; cases c <;> rfl
  | insert S st k v _ ih => intro c; rw [insert_hasCF]; exact ih c
  | get S st k _ ih => intro c; rw [get_hasCF]; exact ih c
  | remove S st k _ ih => intro c; rw [remove_hasCF]; exact ih c
  | contains S st k _ ih => intro c; rw [contains_hasCF]; exact ih c
  | batch_modify S fail st keys vals _ ih =>
    intro c; rw [batch_modify_hasCF]; exact ih c

/-- Claim C8: after a successful construction, the `CategoryNotFound` branch of
column resolution is unreachable. In every adapter state reachable from
`RocksAdapter::new` through any sequence of contract operations, resolving any
category of any schema yields the partition handle, never the error. -/
theorem c8_category_resolution_total {K V : Type} (st : RocksAdapter)
    (h : Reachable st) (S : StorageSchema K V) :
    get_column S st.db = .ok (map_category S.category) :=
  get_column_ok S st.db (reachable_hasCF st h S.category)

/-- Witness for C8: column resolution succeeds on the fresh adapter for a
SignedTransaction schema. -/
theorem c8_witness :
    get_column (bytesSchema .signedTransaction) RocksAdapter.new.db = .ok "c2" :=
  c8_category_resolution_total RocksAdapter.new Reachable.new
    (bytesSchema .signedTransaction)

lemma be32_inj {c c' : Nat} (h : c < 4294967296) (h' : c' < 4294967296)
    (he : be32 c = be32 c') : c = c' := by
  simp only [be32, List.cons.injEq, and_true] at he
  omega

lemma realKey_inj_ctr {c c' : Nat} {k k' : Bytes}
    (h : c < 4294967296) (h' : c' < 4294967296)
    (he : realKey c k = realKey c' k') : c = c' := by
  simp only [realKey, List.cons.injEq] at he
  obtain ⟨-, happ⟩ := he
  have hlen : (be32 c).length = (be32 c').length := by
    simp [be32]
  exact be32_inj h h' (List.append_inj happ hlen).1

lemma wrap32_lt (n : Nat) : wrap32 n < 4294967296 := by
  rw [wrap32]
  omega

lemma buildPairs_ok_length {K V : Type} (S : StorageSchema K V) :
    ∀ (ps : List (K × StorageBatchModify V)) (i : Nat)
      (pairs : List (Bytes × Option Bytes)) (iF : Nat),
      buildPairs S i ps = (.ok pairs, iF) → pairs.length = ps.length := by
  intro ps
  induction ps with
  | nil =>
    intro i pairs iF h
    simp only [buildPairs, Prod.mk.injEq] at h
    obtain ⟨h1, -⟩ := h
    rw [← Except.ok.inj h1]
    rfl
  | cons p rest ih =>
    intro i pairs iF h
    obtain ⟨key, value⟩ := p
    simp only [buildPairs] at h
    cases hk : S.encodeKey key with
    | error e =>
      simp only [hk, Prod.mk.injEq] at h
      exact Except.noConfusion h.1
    | ok k =>
      rw [hk] at h
      cases hv : (match value with
          | .insert v => (S.encodeVal v).map some
          | .remove => (.ok none : ProtocolResult (Option Bytes))) with
      | error e =>
        rw [hv] at h
        simp only [Prod.mk.injEq] at h
        exact Except.noConfusion h.1
      | ok vOpt =>
        rw [hv] at h
        cases hrec : buildPairs S (wrap32 i) rest with
        | mk r iF2 =>
          rw [hrec] at h
          cases r with
          | error e =>
            simp only [Prod.mk.injEq] at h
            exact Except.noConfusion h.1
          | ok pairs2 =>
            simp only [Prod.mk.injEq] at h
            obtain ⟨h1, -⟩ := h
            rw [← Except.ok.inj h1]
            simp only [List.length_cons, ih (wrap32 i) pairs2 iF2 hrec]

lemma buildPairs_ok_getKey {K V : Type} (S : StorageSchema K V) :
    ∀ (ps : List (K × StorageBatchModify V)) (i : Nat)
      (pairs : List (Bytes × Option Bytes)) (iF : Nat) (j : Nat)
      (hj : j < ps.length),
      i < 4294967296 →
      buildPairs S i ps = (.ok pairs, iF) →
      ∃ ek, S.encodeKey (ps.get ⟨j, hj⟩).1 = .ok ek ∧
        ∃ hj' : j < pairs.length,
          (pairs.get ⟨j, hj'⟩).1 = realKey ((i + j) % 4294967296) ek := by
  intro ps
  induction ps with
  | nil =>
    intro i pairs iF j hj
    exact absurd hj (by simp)
  | cons p rest ih =>
    intro i pairs iF j hj hi h
    obtain ⟨key, value⟩ := p
    simp only [buildPairs] at h
    cases hk : S.encodeKey key with
    | error e =>
      simp only [hk, Prod.mk.injEq] at h
      exact Except.noConfusion h.1
    | ok k =>
      rw [hk] at h
      cases hv : (match value with
          | .insert v => (S.encodeVal v).map some
          | .remove => (.ok none : ProtocolResult (Option Bytes))) with
      | error e =>
        rw [hv] at h
        simp only [Prod.mk.injEq] at h
        exact Except.noConfusion h.1
      | ok vOpt =>
        rw [hv] at h
        cases hrec : buildPairs S (wrap32 i) rest with
        | mk r iF2 =>
          rw [hrec] at h
          cases r with
          | error e =>
            simp only [Prod.mk.injEq] at h
            exact Except.noConfusion h.1
          | ok pairs2 =>
            simp only [Prod.mk.injEq] at h
            obtain ⟨h1, -⟩ := h
            obtain rfl : (realKey i k, vOpt) :: pairs2 = pairs := Except.ok.inj h1
            cases j with
            | zero =>
              refine ⟨k, hk, by simp, ?_⟩
              simp only [List.get]
              rw [Nat.add_zero, Nat.mod_eq_of_lt hi]
            | succ j' =>
              have hj2 : j' < rest.length := by
                simpa using hj
              obtain ⟨ek, hek, hj', hkey⟩ :=
                ih (wrap32 i) pairs2 iF2 j' hj2 (wrap32_lt i) hrec
              refine ⟨ek, by simpa using hek, by simpa using hj', ?_⟩
              simp only [List.get]
              rw [hkey, wrap32, Nat.mod_add_mod]
              congr 1
              omega

lemma buildPairs_ok_nodup {K V : Type} (S : StorageSchema K V)
    (ps : List (K × StorageBatchModify V)) (i : Nat)
    (pairs : List (Bytes × Option Bytes)) (iF : Nat)
    (hi : i < 4294967296) (hcap : ps.length ≤ 4294967296)
    (hb : buildPairs S i ps = (.ok pairs, iF)) :
    (pairs.map Prod.fst).Nodup := by
  have hlen := buildPairs_ok_length S ps i pairs iF hb
  rw [List.nodup_iff_injective_get]
  intro a b hab
  apply Fin.ext
  by_contra hne
  obtain ⟨a, ha⟩ := a
  obtain ⟨b, hb2⟩ := b
  simp only at hne
  have hma : a < pairs.length := by simpa using ha
  have hmb : b < pairs.length := by simpa using hb2
  have hja : a < ps.length := hlen ▸ hma
  have hjb : b < ps.length := hlen ▸ hmb
  obtain ⟨eka, -, hja', hkeya⟩ :=
    buildPairs_ok_getKey S ps i pairs iF a hja hi hb
  obtain ⟨ekb, -, hjb', hkeyb⟩ :=
    buildPairs_ok_getKey S ps i pairs iF b hjb hi hb
  have hga : (pairs.map Prod.fst).get ⟨a, ha⟩ = (pairs.get ⟨a, hja'⟩).1 := by
    simp [List.get_map]
  have hgb : (pairs.map Prod.fst).get ⟨b, hb2⟩ = (pairs.get ⟨b, hjb'⟩).1 := by
    simp [List.get_map]
  rw [hga, hgb, hkeya, hkeyb] at hab
  have hctr : (i + a) % 4294967296 = (i + b) % 4294967296 :=
    realKey_inj_ctr (Nat.mod_lt _ (by omega)) (Nat.mod_lt _ (by omega)) hab
  omega

lemma applyPairs_get_not_mem (ps : List (Bytes × Option Bytes)) (kv : KV)
    (k : Bytes) (h : ∀ p ∈ ps, p.1 ≠ k) :
    kvGet (applyPairs kv ps) k = kvGet kv k := by
  induction ps generalizing kv with
  | nil => rfl
  | cons p rest ih =>
    obtain ⟨pk, ov⟩ := p
    have hpk : pk ≠ k := h (pk, ov) (List.mem_cons_self _ _)
    have hrest : ∀ p ∈ rest, p.1 ≠ k := fun p hp => h p (List.mem_cons_of_mem _ hp)
    cases ov with
    | some v =>
      rw [show applyPairs kv ((pk, some v) :: rest) = applyPairs (kvPut kv pk v) rest
          from rfl]
      rw [ih (kvPut kv pk v) hrest, kvGet_kvPut_ne kv pk k v hpk]
    | none =>
      rw [show applyPairs kv ((pk, none) :: rest) = applyPairs (kvDelete kv pk) rest
          from rfl]
      rw [ih (kvDelete kv pk) hrest, kvGet_kvDelete_ne kv pk k hpk]

lemma applyPairs_get_of_mem (ps : List (Bytes × Option Bytes)) (kv : KV)
    (j : Nat) (hj : j < ps.length) (hnd : (ps.map Prod.fst).Nodup) :
    kvGet (applyPairs kv ps) (ps.get ⟨j, hj⟩).1 = (ps.get ⟨j, hj⟩).2 := by
  induction ps generalizing kv j with
  | nil => exact absurd hj (by simp)
  | cons p rest ih =>
    obtain ⟨pk, ov⟩ := p
    have hnd' : (rest.map Prod.fst).Nodup := (List.nodup_cons.mp hnd).2
    cases j with
    | zero =>
      have hmem : pk ∉ rest.map Prod.fst := (List.nodup_cons.mp hnd).1
      have hne : ∀ p ∈ rest, p.1 ≠ pk := by
        intro p hp hc
        exact hmem (hc ▸ List.mem_map_of_mem Prod.fst hp)
      cases ov with
      | some v =>
        rw [show applyPairs kv ((pk, some v) :: rest) = applyPairs (kvPut kv pk v) rest
            from rfl]
        simp only [List.get]
        rw [applyPairs_get_not_mem rest _ pk hne, kvGet_kvPut_self]
      | none =>
        rw [show applyPairs kv ((pk, none) :: rest) = applyPairs (kvDelete kv pk) rest
            from rfl]
        simp only [List.get]
        rw [applyPairs_get_not_mem rest _ pk hne, kvGet_kvDelete_self]
    | succ j' =>
      have hj' : j' < rest.length := by simpa using hj
      cases ov with
      | some v =>
        rw [show applyPairs kv ((pk, some v) :: rest) = applyPairs (kvPut kv pk v) rest
            from rfl]
        exact ih (kvPut kv pk v) j' hj' hnd'
      | none =>
        rw [show applyPairs kv ((pk, none) :: rest) = applyPairs (kvDelete kv pk) rest
            from rfl]
        exact ih (kvDelete kv pk) j' hj' hnd'

/-- Claim C3: batch atomicity. Once a well-formed batch reaches the single
engine write (equal list lengths, resolvable column, all codecs succeeded so
the physical pairs were built), the outcome is all-or-nothing: if the engine
reports failure for the one `write(batch)` call, the call returns the engine
error and the stored data is exactly as before (only the already-bumped write
counter differs); if the engine reports success, the call returns `Ok` and
every mutation of the batch is visible afterwards — for each `Insert` pair
the physical key maps to the encoded value, and for each `Remove` pair the
physical key is absent. -/
theorem c3_batch_modify_atomic {K V : Type} (S : StorageSchema K V)
    (st : RocksAdapter) (keys : List K) (vals : List (StorageBatchModify V))
    (pairs : List (Bytes × Option Bytes)) (iF : Nat) (fail : Bool)
    (hlen : keys.length = vals.length)
    (hi : st.i < 4294967296)
    (hcap : keys.length ≤ 4294967296)
    (hcf : hasCF st.db (map_category S.category) = true)
    (hb : buildPairs S st.i (keys.zip vals) = (.ok pairs, iF)) :
    (fail = true →
      RocksAdapter.batch_modify S fail st keys vals
        = (.error (.storage .rocksDB), { st with i := iF })) ∧
    (fail = false →
      (RocksAdapter.batch_modify S fail st keys vals).1 = .ok () ∧
      ∀ j (hj : j < pairs.length),
        get_cf ((RocksAdapter.batch_modify S fail st keys vals).2).db
            (map_category S.category) (pairs.get ⟨j, hj⟩).1
          = (pairs.get ⟨j, hj⟩).2) := by
  have hbm : RocksAdapter.batch_modify S fail st keys vals
      = if fail then (.error (.storage .rocksDB), { st with i := iF })
        else (.ok (), { st with i := iF, db := writeBatchCF st.db (map_category S.category) pairs }) := by
    rw [RocksAdapter.batch_modify, if_neg (fun hc => hc hlen),
      get_column_ok S st.db hcf, hb]
  constructor
  · intro hf
    rw [hbm, hf, if_pos rfl]
  · intro hf
    subst hf
    rw [hbm]
    simp only [Bool.false_eq_true, if_false]
    refine ⟨by trivial, ?_⟩
    intro j hj
    obtain ⟨kv0, hkv0⟩ := dbGetCF_some_of_hasCF _ _ hcf
    have hzcap : (keys.zip vals).length ≤ 4294967296 := by
      rw [List.length_zip]
      omega
    have hnd := buildPairs_ok_nodup S (keys.zip vals) st.i pairs iF hi hzcap hb
    simp only [get_cf, writeBatchCF, dbGetCF_modify_self, hkv0, Option.map_some,
      Option.some_bind]
    exact applyPairs_get_of_mem pairs kv0 j hj hnd

/-- Witness for C3: a two-pair batch (an insert and a remove) against a fresh
adapter with a successful engine write lands both mutations. -/
theorem c3_witness :
    (RocksAdapter.batch_modify (bytesSchema .block) false RocksAdapter.new
        [[1], [2]] [.insert [7], .remove]).1 = .ok () ∧
    get_cf ((RocksAdapter.batch_modify (bytesSchema .block) false RocksAdapter.new
        [[1], [2]] [.insert [7], .remove]).2).db (map_category .block)
        (realKey 0 [1])
      = some [7] := by
  have h := c3_batch_modify_atomic (bytesSchema .block) RocksAdapter.new
      [[1], [2]] [.insert [7], .remove]
      [(realKey 0 [1], some [7]), (realKey 1 [2], none)] 2 false
      rfl (by decide) (by decide) rfl rfl
  exact ⟨(h.2 rfl).1, (h.2 rfl).2 0 (by decide)⟩

lemma buildPairs_replicate_remove :
    ∀ (n i : Nat), ∃ pairs iF,
      buildPairs (bytesSchema .block) i
          (List.replicate n
            (([], StorageBatchModify.remove) : Bytes × StorageBatchModify Bytes))
        = (.ok pairs, iF) := by
  intro n
  induction n with
  | zero => exact fun i => ⟨[], i, rfl⟩
  | succ m ih =>
    intro i
    obtain ⟨pairs, iF, h⟩ := ih (wrap32 i)
    refine ⟨(realKey i [], none) :: pairs, iF, ?_⟩
    rw [List.replicate_succ]
    show (match buildPairs (bytesSchema .block) (wrap32 i)
          (List.replicate m (([], StorageBatchModify.remove) : Bytes × StorageBatchModify Bytes)) with
      | (.ok pairs2, iF2) => ((.ok ((realKey i [], none) :: pairs2), iF2) :
          ProtocolResult (List (Bytes × Option Bytes)) × Nat)
      | (.error e, iF2) => (.error e, iF2)) = _
    rw [h]

/-- Counterexample for C10 as stated: the write counter is a `u32` and wraps,
so in a single `batch_modify` whose batch holds 4294967297 pairs (one more
than 2^32) over the same logical key, the pair at index 0 and the pair at
index 4294967296 receive the same counter value 0 and hence the very same
physical key — two mutations of one batch that do target the same stored
entry. -/
theorem c10_counterexample :
    ∃ (pairs : List (Bytes × Option Bytes)) (iF : Nat),
      buildPairs (bytesSchema .block) 0
          (List.replicate 4294967297
            (([], StorageBatchModify.remove) : Bytes × StorageBatchModify Bytes))
        = (.ok pairs, iF) ∧
      ∃ (h0 : 0 < pairs.length) (hU : 4294967296 < pairs.length),
        (pairs.get ⟨0, h0⟩).1 = (pairs.get ⟨4294967296, hU⟩).1 := by
  obtain ⟨pairs, iF, h⟩ := buildPairs_replicate_remove 4294967297 0
  have hlen := buildPairs_ok_length _ _ _ _ _ h
  rw [List.length_replicate] at hlen
  have h0 : (0 : Nat) < pairs.length := by omega
  have hU : (4294967296 : Nat) < pairs.length := by omega
  refine ⟨pairs, iF, h, h0, hU, ?_⟩
  obtain ⟨ek0, hek0, h0', hkey0⟩ :=
    buildPairs_ok_getKey (bytesSchema .block) _ 0 pairs iF 0
      (by rw [List.length_replicate]; omega) (by omega) h
  obtain ⟨ekU, hekU, hU', hkeyU⟩ :=
    buildPairs_ok_getKey (bytesSchema .block) _ 0 pairs iF 4294967296
      (by rw [List.length_replicate]; omega) (by omega) h
  have hek0' : ek0 = [] := by
    have h1 := Except.ok.inj hek0
    rw [List.get_replicate] at h1
    exact h1.symm
  have hekU' : ekU = [] := by
    have h1 := Except.ok.inj hekU
    rw [List.get_replicate] at h1
    exact h1.symm
  rw [show (pairs.get ⟨0, h0⟩).1 = (pairs.get ⟨0, h0'⟩).1 from rfl,
    show (pairs.get ⟨4294967296, hU⟩).1 = (pairs.get ⟨4294967296, hU'⟩).1 from rfl,
    hkey0, hkeyU, hek0', hekU']

/-- Claim C10, amended: within a single `batch_modify` whose batch holds at
most 2^32 pairs (beyond that the `u32` write counter wraps and physical keys
can repeat, see the counterexample), every key/mutation pair is written under
a distinct physical key: pair `j` is keyed by `realKey ((i + j) mod 2^32)`
applied to its encoded key — the marker byte being 98 while the counter value
is below 5000 and 97 afterwards, by definition of `realKey` — and these keys
are pairwise distinct. In particular (last conjunct, concretely) a batch
holding `Insert(k, v)` followed by `Remove` of the same `k` does not delete
the inserted value: after the batch the value is still stored under the
physical key of the insert pair, while the remove only clears the distinct
key of its own pair. -/
theorem c10_batch_pairs_distinct_keys {K V : Type} (S : StorageSchema K V)
    (st : RocksAdapter) (keys : List K) (vals : List (StorageBatchModify V))
    (pairs : List (Bytes × Option Bytes)) (iF : Nat)
    (hi : st.i < 4294967296)
    (hcap : (keys.zip vals).length ≤ 4294967296)
    (hb : buildPairs S st.i (keys.zip vals) = (.ok pairs, iF)) :
    (pairs.map Prod.fst).Nodup ∧
    (∀ j (hj : j < (keys.zip vals).length), ∃ ek,
        S.encodeKey ((keys.zip vals).get ⟨j, hj⟩).1 = .ok ek ∧
        ∃ hj' : j < pairs.length,
          (pairs.get ⟨j, hj'⟩).1 = realKey ((st.i + j) % 4294967296) ek) ∧
    ((RocksAdapter.batch_modify (bytesSchema .block) false RocksAdapter.new
        [[3], [3]] [.insert [9], .remove]).1 = .ok () ∧
     get_cf ((RocksAdapter.batch_modify (bytesSchema .block) false RocksAdapter.new
        [[3], [3]] [.insert [9], .remove]).2).db "c1" (realKey 0 [3])
       = some [9] ∧
     get_cf ((RocksAdapter.batch_modify (bytesSchema .block) false RocksAdapter.new
        [[3], [3]] [.insert [9], .remove]).2).db "c1" (realKey 1 [3])
       = none) :=
  ⟨buildPairs_ok_nodup S _ st.i pairs iF hi hcap hb,
   fun j hj => buildPairs_ok_getKey S _ st.i pairs iF j hj hi hb,
   rfl, rfl, rfl⟩

/-- Witness for the amended C10: on a fresh adapter, a two-pair batch over the
keys [1] and [2] yields two distinct physical keys. -/
theorem c10_witness :
    (([(realKey 0 [1], some [7]), (realKey 1 [2], none)].map Prod.fst)).Nodup :=
  (c10_batch_pairs_distinct_keys (bytesSchema .block) RocksAdapter.new
    [[1], [2]] [.insert [7], .remove]
    [(realKey 0 [1], some [7]), (realKey 1 [2], none)] 2
    (by decide) (by decide) rfl).1
